import Mathlib

/-!
Verification of the Snake game logic engine (`src/game_logic.py`).

The engine is shallowly embedded: the `SnakeGame` class becomes the `Game`
record, Python integers become `Int`, Python tuples become products, and the
snake list becomes a Lean list.  The single source of randomness
(`random.randrange`) is made explicit: every operation that samples receives a
list of raw draws, and `random.randrange(0, n)` maps the next raw draw into
`[0, n)` (raising `ValueError` when the range is empty, as Python does).  The
rejection-sampling loop of `generate_food` consumes one draw pair per
iteration and reports `none` when the supplied draws are exhausted, so a
transition exists exactly when the loop terminates on the given draws.
Python exceptions are modelled with `Except`.
-/

namespace SnakeSpec

/-- Exceptions the embedded code can raise: `random.randrange` with an empty
range raises `ValueError`, division by a zero `block_size` raises
`ZeroDivisionError`, and indexing an empty snake raises `IndexError`. -/
inductive PyErr where
  | valueError
  | zeroDivisionError
  | indexError
deriving DecidableEq

/-- The attributes of the `SnakeGame` class, in source order. -/
structure Game where
  width : Int
  height : Int
  block_size : Int
  game_over : Bool
  score : Nat
  snake_pos : List (Int × Int)
  direction : Int × Int
  food_pos : Int × Int
deriving DecidableEq

/-- Round-half-to-even for a nonnegative denominator: the exact value of
Python `round(n / d)` on the rational `n / d` when `0 < d`. -/
def roundHalfEvenPos (n d : Int) : Int :=
  if 2 * (n % d) < d then n / d
  else if d < 2 * (n % d) then n / d + 1
  else if (n / d) % 2 = 0 then n / d else n / d + 1

/-- Python `round(num / den)` on the exact rational `num / den`
(ties to even), for any nonzero `den`. -/
def roundHalfEven (num den : Int) : Int :=
  if den < 0 then roundHalfEvenPos (-num) (-den) else roundHalfEvenPos num den

/-- Model of `random.randrange(0, n)` fed by one raw draw: `ValueError` on an empty
range, otherwise some value in `[0, n)` (the draw reduced mod `n`). -/
def randrange0 (n : Int) (draw : Nat) : Except PyErr Int :=
  if n ≤ 0 then .error .valueError
  else .ok ((draw % n.toNat : Nat) : Int)

/-- Python `round(num / den)`: `ZeroDivisionError` when `den = 0`. -/
def pyRoundDiv (num den : Int) : Except PyErr Int :=
  if den = 0 then .error .zeroDivisionError
  else .ok (roundHalfEven num den)

/-- One coordinate of a food sample:
`round(random.randrange(0, limit - block_size) / block_size) * block_size`. -/
def sampleCoord (limit bs : Int) (draw : Nat) : Except PyErr Int :=
  match randrange0 (limit - bs) draw with
  | .error e => .error e
  | .ok v =>
    match pyRoundDiv v bs with
    | .error e => .error e
    | .ok r => .ok (r * bs)

/-- One iteration body of `generate_food`: sample the x coordinate, then the
y coordinate. -/
def sampleFood (g : Game) (dx dy : Nat) : Except PyErr (Int × Int) :=
  match sampleCoord g.width g.block_size dx with
  | .error e => .error e
  | .ok x =>
    match sampleCoord g.height g.block_size dy with
    | .error e => .error e
    | .ok y => .ok (x, y)

/-- Model of `generate_food`: sample a position and resample while it lies on the
snake.  Consumes one draw pair per iteration; `none` means the supplied
draws ran out before the loop exited. -/
def generate_food (g : Game) : List (Nat × Nat) → Option (Except PyErr (Int × Int))
  | [] => none
  | d :: rest =>
    match sampleFood g d.1 d.2 with
    | .error e => some (.error e)
    | .ok p => if p ∈ g.snake_pos then generate_food g rest else some (.ok p)

/-- Model of `reset_game`: clear the flags, center the snake (floor division, as
Python `//`), zero the direction, then place food on the reset board. -/
def reset_game (g : Game) (draws : List (Nat × Nat)) : Option (Except PyErr Game) :=
  let g1 : Game :=
    { g with game_over := false, score := 0,
             snake_pos := [(g.width.fdiv 2, g.height.fdiv 2)],
             direction := (0, 0) }
  match generate_food g1 draws with
  | none => none
  | some (.error e) => some (.error e)
  | some (.ok p) => some (.ok { g1 with food_pos := p })

/-- Model of `SnakeGame.__init__`: store the three configuration values unvalidated
and call `reset_game`. -/
def snakeInit (w h bs : Int) (draws : List (Nat × Nat)) : Option (Except PyErr Game) :=
  reset_game
    { width := w, height := h, block_size := bs, game_over := false, score := 0,
      snake_pos := [], direction := (0, 0), food_pos := (0, 0) } draws

/-- The `opposite_directions` dict of `change_direction`, as a lookup
(`dict.get`, so `none` for keys outside the four scaled cardinals). -/
def opposite_directions (bs : Int) (d : Int × Int) : Option (Int × Int) :=
  if d = (bs, 0) then some (-bs, 0)
  else if d = (-bs, 0) then some (bs, 0)
  else if d = (0, bs) then some (0, -bs)
  else if d = (0, -bs) then some (0, bs)
  else none

/-- Model of `change_direction`: accept the request unless it equals the dict's
opposite of the current direction (Python compares the tuple with
`dict.get`'s result, and a tuple never equals `None`). -/
def change_direction (g : Game) (nd : Int × Int) : Game :=
  if g.direction = (0, 0) ∨ some nd ≠ opposite_directions g.block_size g.direction then
    { g with direction := nd }
  else g

/-- Model of `move_snake`: no-op when stationary; otherwise compute the new head,
test walls and the body with the tail excluded (`snake_pos[:-1]`), and on
survival prepend the head and either eat (keep the tail, bump the score,
regenerate food) or slide (pop the tail). -/
def move_snake (g : Game) (draws : List (Nat × Nat)) : Option (Except PyErr Game) :=
  if g.direction = (0, 0) then some (.ok g)
  else
    match g.snake_pos with
    | [] => some (.error .indexError)
    | hd :: tl =>
      let nh : Int × Int := (hd.1 + g.direction.1, hd.2 + g.direction.2)
      if g.width ≤ nh.1 ∨ nh.1 < 0 ∨ g.height ≤ nh.2 ∨ nh.2 < 0 ∨
          nh ∈ (hd :: tl).dropLast then
        some (.ok { g with game_over := true })
      else
        if nh = g.food_pos then
          match generate_food { g with snake_pos := nh :: hd :: tl } draws with
          | none => none
          | some (.error e) => some (.error e)
          | some (.ok p) =>
            some (.ok { g with snake_pos := nh :: hd :: tl, score := g.score + 1,
                               food_pos := p })
        else
          some (.ok { g with snake_pos := (nh :: hd :: tl).dropLast })

/-- Model of `check_collision`: pure query testing walls and the body with the tail
excluded, exactly as the inline check of `move_snake`. -/
def check_collision (g : Game) (position : Int × Int) : Bool :=
  if g.width ≤ position.1 ∨ position.1 < 0 ∨ g.height ≤ position.2 ∨ position.2 < 0 then
    true
  else if position ∈ g.snake_pos.dropLast then true
  else false

/-- A freshly constructed default-size game whose single food draw pair
`(0, 0)` lands at the origin. -/
def G0 : Game :=
  { width := 800, height := 600, block_size := 20, game_over := false, score := 0,
    snake_pos := [(400, 300)], direction := (0, 0), food_pos := (0, 0) }

example : snakeInit 800 600 20 [(0, 0)] = some (.ok G0) := rfl

example :
    move_snake { G0 with direction := (20, 0) } [] =
      some (.ok { G0 with snake_pos := [(420, 300)], direction := (20, 0) }) := rfl

/-- The position returned by `generate_food` survived the rejection loop, so
it does not lie on the snake it was generated against. -/
theorem generate_food_not_mem :
    ∀ (draws : List (Nat × Nat)) (g : Game) (p : Int × Int),
      generate_food g draws = some (.ok p) → p ∉ g.snake_pos := by
  intro draws
  induction draws with
  | nil => intro g p h; simp [generate_food] at h
  | cons d rest ih =>
    intro g p h
    unfold generate_food at h
    cases hs : sampleFood g d.1 d.2 with
    | error e => rw [hs] at h; simp at h
    | ok q =>
      simp only [hs] at h
      by_cases hq : q ∈ g.snake_pos
      · rw [if_pos hq] at h
        exact ih g p h
      · rw [if_neg hq] at h
        simp only [Option.some.injEq, Except.ok.injEq] at h
        exact h ▸ hq

/-- Every position returned by `generate_food` was produced by one
`sampleFood` call on the same game. -/
theorem generate_food_sampled :
    ∀ (draws : List (Nat × Nat)) (g : Game) (p : Int × Int),
      generate_food g draws = some (.ok p) → ∃ dx dy, sampleFood g dx dy = .ok p := by
  intro draws
  induction draws with
  | nil => intro g p h; simp [generate_food] at h
  | cons d rest ih =>
    intro g p h
    unfold generate_food at h
    cases hs : sampleFood g d.1 d.2 with
    | error e => rw [hs] at h; simp at h
    | ok q =>
      simp only [hs] at h
      by_cases hq : q ∈ g.snake_pos
      · rw [if_pos hq] at h
        exact ih g p h
      · rw [if_neg hq] at h
        simp only [Option.some.injEq, Except.ok.injEq] at h
        exact ⟨d.1, d.2, h ▸ hs⟩

/-- The sampler `generate_food` reads only the board dimensions, the block size and the
snake; games agreeing there get identical samples. -/
theorem generate_food_congr (g1 g2 : Game)
    (hw : g1.width = g2.width) (hh : g1.height = g2.height)
    (hb : g1.block_size = g2.block_size) (hs : g1.snake_pos = g2.snake_pos) :
    ∀ draws : List (Nat × Nat), generate_food g1 draws = generate_food g2 draws := by
  intro draws
  induction draws with
  | nil => rfl
  | cons d rest ih =>
    unfold generate_food
    have hsf : sampleFood g1 d.1 d.2 = sampleFood g2 d.1 d.2 := by
      unfold sampleFood
      rw [hw, hh, hb]
    rw [hsf, hs, ih]

/-- The state in which the latent tail-exclusion bug fires: two segments,
food on the tail, the head one step from the tail. -/
def gTailFood : Game :=
  { width := 800, height := 600, block_size := 20, game_over := false, score := 0,
    snake_pos := [(100, 100), (120, 100)], direction := (20, 0),
    food_pos := (120, 100) }

/-- Claim C1 (violated by the code): with the snake `[(100,100), (120,100)]`,
food on the tail `(120,100)` and direction `(20,0)`, the new head equals the
tail and the food, so the tail is not vacated this tick; the claim requires
`move_snake` to register a collision, but the code excludes the tail from the
self-collision check unconditionally, keeps `game_over = false`, and produces
a snake whose head overlaps its retained tail (a duplicated position). -/
theorem move_snake_tail_food_overlap :
    move_snake gTailFood [(0, 0)] =
      some (.ok { gTailFood with
                    snake_pos := [(120, 100), (100, 100), (120, 100)],
                    score := 1, food_pos := (0, 0) }) ∧
    ({ gTailFood with
         snake_pos := [(120, 100), (100, 100), (120, 100)],
         score := 1, food_pos := (0, 0) } : Game).game_over = false ∧
    ¬ ([(120, 100), (100, 100), (120, 100)] : List (Int × Int)).Nodup :=
  ⟨rfl, rfl, by decide⟩

/-- The engine the constructor happily produces for `block_size = -20`. -/
def gNegativeBlock : Game :=
  { width := 800, height := 600, block_size := -20, game_over := false, score := 0,
    snake_pos := [(400, 300)], direction := (0, 0), food_pos := (0, 0) }

/-- Claim C4 (violated by the code): the constructor performs no validation,
so `SnakeGame(800, 600, -20)` — a non-positive block size — completes
normally instead of failing fast, and the resulting instance is usable: a
direction change followed by a move succeeds. -/
theorem construction_accepts_negative_block :
    snakeInit 800 600 (-20) [(0, 0)] = some (.ok gNegativeBlock) ∧
    move_snake (change_direction gNegativeBlock (-20, 0)) [] =
      some (.ok { gNegativeBlock with snake_pos := [(380, 300)],
                                      direction := (-20, 0) }) :=
  ⟨rfl, rfl⟩

/-- Python list objects live on a heap; a list-valued attribute holds a
reference (an object id) into it.  This models the aliasing-relevant part of
`get_state`. -/
structure PyStore where
  lists : Nat → List (Int × Int)

/-- The engine's attributes as Python stores them: `snake_pos` is a reference
to a heap list object, while `food_pos`, `score` and `game_over` are
immutable values. -/
structure EngineHandle where
  snake_ref : Nat
  food_pos : Int × Int
  score : Nat
  game_over : Bool

/-- The dict returned by `get_state`; its `snake_positions` entry holds a
list reference. -/
structure StateDict where
  snake_positions : Nat
  food_position : Int × Int
  score : Nat
  game_over : Bool

/-- Model of `get_state`: builds the dict from the engine's attributes.  The code
stores `self.snake_pos` itself in the dict, so the dict carries the very
same list reference the engine holds, not a copy. -/
def get_state (e : EngineHandle) : StateDict :=
  { snake_positions := e.snake_ref, food_position := e.food_pos,
    score := e.score, game_over := e.game_over }

/-- A caller doing `lst.append(p)` on a list reference it holds: the heap
object is updated in place. -/
def listAppendAt (st : PyStore) (r : Nat) (p : Int × Int) : PyStore :=
  { lists := fun i => if i = r then st.lists i ++ [p] else st.lists i }

/-- The snake the engine sees: the heap object behind its reference. -/
def engineSnake (st : PyStore) (e : EngineHandle) : List (Int × Int) :=
  st.lists e.snake_ref

/-- A concrete heap and engine for the aliasing demonstration. -/
def demoStore : PyStore := { lists := fun _ => [(400, 300)] }

/-- The engine handle for the aliasing demonstration. -/
def demoEngine : EngineHandle :=
  { snake_ref := 0, food_pos := (120, 60), score := 0, game_over := false }

/-- Claim C5 (violated by the code): `get_state` hands out the engine's own
snake list reference, so a caller appending through the returned dict
mutates the engine's snake: the engine's view changes from `[(400,300)]` to
`[(400,300), (99,99)]` without any engine operation being called. -/
theorem get_state_aliases_snake :
    (get_state demoEngine).snake_positions = demoEngine.snake_ref ∧
    engineSnake demoStore demoEngine = [(400, 300)] ∧
    engineSnake
      (listAppendAt demoStore (get_state demoEngine).snake_positions (99, 99))
      demoEngine = [(400, 300), (99, 99)] :=
  ⟨rfl, rfl, rfl⟩

/-- Claim C9: when `move_snake` detects a collision — new head off the board
on either axis, or on a body segment with the tail excluded — it only sets
`game_over`; the snake list, the score and the food position in the result
are the caller's values unchanged. -/
theorem move_snake_collision (g : Game) (hd : Int × Int) (tl : List (Int × Int))
    (draws : List (Nat × Nat))
    (hsp : g.snake_pos = hd :: tl) (hdir : g.direction ≠ (0, 0))
    (hcol : g.width ≤ hd.1 + g.direction.1 ∨ hd.1 + g.direction.1 < 0 ∨
            g.height ≤ hd.2 + g.direction.2 ∨ hd.2 + g.direction.2 < 0 ∨
            (hd.1 + g.direction.1, hd.2 + g.direction.2) ∈ (hd :: tl).dropLast) :
    move_snake g draws = some (.ok { g with game_over := true }) := by
  unfold move_snake
  rw [if_neg hdir, hsp]
  exact if_pos hcol

/-- The wall-collision scenario of the spec: head at `(780, 300)` moving
right on the default board. -/
def gWall : Game :=
  { width := 800, height := 600, block_size := 20, game_over := false, score := 0,
    snake_pos := [(780, 300)], direction := (20, 0), food_pos := (0, 0) }

/-- Concrete instance of `move_snake_collision`: `780 + 20 = 800` is out of
bounds, so the move only flips `game_over`. -/
theorem move_snake_collision_witness :
    move_snake gWall [] = some (.ok { gWall with game_over := true }) :=
  move_snake_collision gWall (780, 300) [] [] rfl (by decide) (by decide)

/-- Claim C6: from a live state whose next head cell is in bounds, body-free
(tail excluded) and holds the food, a successful `move_snake` adds exactly 1
to the score, prepends the head without popping the tail (length grows by
one), and installs a food position off the updated snake — in particular a
position different from the eaten one. -/
theorem move_snake_eats (g g2 : Game) (hd : Int × Int) (tl : List (Int × Int))
    (draws : List (Nat × Nat))
    (hgo : g.game_over = false)
    (hsp : g.snake_pos = hd :: tl)
    (hdir : g.direction ≠ (0, 0))
    (hin : 0 ≤ hd.1 + g.direction.1 ∧ hd.1 + g.direction.1 < g.width ∧
           0 ≤ hd.2 + g.direction.2 ∧ hd.2 + g.direction.2 < g.height)
    (hbody : (hd.1 + g.direction.1, hd.2 + g.direction.2) ∉ (hd :: tl).dropLast)
    (hfood : (hd.1 + g.direction.1, hd.2 + g.direction.2) = g.food_pos)
    (hmove : move_snake g draws = some (.ok g2)) :
    g2.score = g.score + 1 ∧
    g2.snake_pos = (hd.1 + g.direction.1, hd.2 + g.direction.2) :: g.snake_pos ∧
    g2.food_pos ∉ g2.snake_pos ∧
    g2.food_pos ≠ g.food_pos ∧
    g2.game_over = false := by
  unfold move_snake at hmove
  rw [if_neg hdir] at hmove
  simp only [hsp] at hmove
  have hncol : ¬ (g.width ≤ hd.1 + g.direction.1 ∨ hd.1 + g.direction.1 < 0 ∨
      g.height ≤ hd.2 + g.direction.2 ∨ hd.2 + g.direction.2 < 0 ∨
      (hd.1 + g.direction.1, hd.2 + g.direction.2) ∈ (hd :: tl).dropLast) := by
    push_neg
    exact ⟨by omega, by omega, by omega, by omega, hbody⟩
  rw [if_neg hncol, if_pos hfood] at hmove
  set gGrown : Game :=
    { g with snake_pos :=
        (hd.1 + g.direction.1, hd.2 + g.direction.2) :: hd :: tl } with hGrown
  cases hgen : generate_food gGrown draws with
  | none => rw [hgen] at hmove; simp at hmove
  | some r =>
    cases r with
    | error e => rw [hgen] at hmove; simp at hmove
    | ok p =>
      rw [hgen] at hmove
      simp only [Option.some.injEq, Except.ok.injEq] at hmove
      have hp : p ∉ gGrown.snake_pos := generate_food_not_mem draws gGrown p hgen
      subst hmove
      refine ⟨rfl, by rw [hsp], ?_, ?_, hgo⟩
      · exact hp
      · intro heq
        apply hp
        have hpfood : p = g.food_pos := heq
        show p ∈ (hd.1 + g.direction.1, hd.2 + g.direction.2) :: hd :: tl
        rw [hpfood, ← hfood]
        exact List.mem_cons_self _ _

/-- The food-eating scenario of the spec: head at `(100,100)`, food at
`(120,100)`, moving right. -/
def gEat : Game :=
  { width := 800, height := 600, block_size := 20, game_over := false, score := 0,
    snake_pos := [(100, 100)], direction := (20, 0), food_pos := (120, 100) }

/-- Concrete instance of `move_snake_eats`: eating at `(120,100)` gives
score 1, snake `[(120,100), (100,100)]` and fresh food at `(0,0)`. -/
theorem move_snake_eats_witness :
    ({ gEat with snake_pos := [(120, 100), (100, 100)], score := 1,
                 food_pos := (0, 0) } : Game).score = gEat.score + 1 ∧
    ({ gEat with snake_pos := [(120, 100), (100, 100)], score := 1,
                 food_pos := (0, 0) } : Game).snake_pos =
      (120, 100) :: gEat.snake_pos ∧
    ({ gEat with snake_pos := [(120, 100), (100, 100)], score := 1,
                 food_pos := (0, 0) } : Game).food_pos ∉
      ({ gEat with snake_pos := [(120, 100), (100, 100)], score := 1,
                   food_pos := (0, 0) } : Game).snake_pos ∧
    ({ gEat with snake_pos := [(120, 100), (100, 100)], score := 1,
                 food_pos := (0, 0) } : Game).food_pos ≠ gEat.food_pos ∧
    ({ gEat with snake_pos := [(120, 100), (100, 100)], score := 1,
                 food_pos := (0, 0) } : Game).game_over = false := by
  have h := move_snake_eats gEat
    { gEat with snake_pos := [(120, 100), (100, 100)], score := 1,
                food_pos := (0, 0) }
    (100, 100) [] [(0, 0)] rfl rfl (by decide) (by decide) (by decide) rfl rfl
  exact h

/-- The four cardinal displacements scaled by the block size. -/
def isCardinal (bs : Int) (d : Int × Int) : Prop :=
  d = (bs, 0) ∨ d = (-bs, 0) ∨ d = (0, bs) ∨ d = (0, -bs)

instance (bs : Int) (d : Int × Int) : Decidable (isCardinal bs d) := by
  unfold isCardinal
  infer_instance

/-- Modelled from the spec's words for `change_direction`: the requested
direction is adopted unless it is the exact opposite of a current cardinal
direction (a 180-degree reversal), which is silently ignored; a stationary
current direction accepts everything. -/
def directionSpec (g : Game) (nd : Int × Int) : Int × Int :=
  if g.direction = (0, 0) then nd
  else if isCardinal g.block_size g.direction ∧
      nd = (-g.direction.1, -g.direction.2) then g.direction
  else nd

/-- The dict lookup on a non-stationary scaled-cardinal direction yields its
exact opposite. -/
theorem opposite_directions_cardinal (bs : Int) (d : Int × Int)
    (hd0 : d ≠ (0, 0)) (hcard : isCardinal bs d) :
    opposite_directions bs d = some (-d.1, -d.2) := by
  have hbz : bs ≠ 0 := by
    intro hb
    subst hb
    rcases hcard with h | h | h | h <;> simp [h] at hd0
  unfold opposite_directions
  rcases hcard with h | h | h | h <;> subst h
  · rw [if_pos rfl]
    simp
  · rw [if_neg (by simp only [Prod.mk.injEq, and_true]; omega), if_pos rfl]
    simp
  · rw [if_neg (by simp only [Prod.mk.injEq]; omega),
      if_neg (by simp only [Prod.mk.injEq]; omega), if_pos rfl]
    simp
  · rw [if_neg (by simp only [Prod.mk.injEq]; omega),
      if_neg (by simp only [Prod.mk.injEq]; omega),
      if_neg (by simp only [Prod.mk.injEq]; omega), if_pos rfl]
    simp

/-- The dict lookup misses on any direction outside the four scaled
cardinals. -/
theorem opposite_directions_noncardinal (bs : Int) (d : Int × Int)
    (hcard : ¬ isCardinal bs d) :
    opposite_directions bs d = none := by
  unfold isCardinal at hcard
  push_neg at hcard
  unfold opposite_directions
  rw [if_neg hcard.1, if_neg hcard.2.1, if_neg hcard.2.2.1, if_neg hcard.2.2.2]

/-- Claim C7: `change_direction` mutates only the direction field, and the
direction it stores is exactly the spec's: the request, except that a
180-degree reversal of a current scaled-cardinal direction is ignored, and a
stationary current direction accepts every request. -/
theorem change_direction_spec (g : Game) (nd : Int × Int) :
    change_direction g nd = { g with direction := directionSpec g nd } := by
  unfold change_direction directionSpec
  by_cases h0 : g.direction = (0, 0)
  · rw [if_pos (Or.inl h0), if_pos h0]
  · rw [if_neg h0]
    by_cases hrev : isCardinal g.block_size g.direction ∧
        nd = (-g.direction.1, -g.direction.2)
    · rw [if_pos hrev]
      obtain ⟨hcard, hnd⟩ := hrev
      have hopp := opposite_directions_cardinal g.block_size g.direction h0 hcard
      rw [if_neg (by
        push_neg
        exact ⟨h0, by rw [hopp, hnd]⟩)]
    · rw [if_neg hrev]
      rw [not_and_or] at hrev
      by_cases hcard : isCardinal g.block_size g.direction
      · have hnd : nd ≠ (-g.direction.1, -g.direction.2) := by
          rcases hrev with h | h
          · exact absurd hcard h
          · exact h
        have hopp := opposite_directions_cardinal g.block_size g.direction h0 hcard
        rw [if_pos (Or.inr (by
          rw [hopp]
          simp only [ne_eq, Option.some.injEq]
          exact hnd))]
      · have hopp := opposite_directions_noncardinal g.block_size g.direction hcard
        rw [if_pos (Or.inr (by rw [hopp]; exact Option.some_ne_none nd))]

/-- Claim C10: `move_snake` never consults `game_over`.  Running it on a
state with the flag raised produces exactly the run from the matching
flag-cleared state, with `game_over` forced back to `true` in the result —
so snake, score and food mutate as if the game were still live; the engine
does not turn `move_snake` into a no-op in the Over state. -/
theorem move_snake_ignores_game_over (g : Game) (draws : List (Nat × Nat))
    (hgo : g.game_over = true) (hdir : g.direction ≠ (0, 0)) :
    move_snake g draws =
      (move_snake { g with game_over := false } draws).map
        (Except.map fun x => { x with game_over := true }) := by
  obtain ⟨w, h, bs, go, sc, sp, dir, fp⟩ := g
  simp only at hgo hdir
  subst hgo
  unfold move_snake
  simp only
  rw [if_neg hdir, if_neg hdir]
  cases sp with
  | nil => rfl
  | cons hd tl =>
    simp only
    by_cases hcol : w ≤ hd.1 + dir.1 ∨ hd.1 + dir.1 < 0 ∨ h ≤ hd.2 + dir.2 ∨
        hd.2 + dir.2 < 0 ∨ (hd.1 + dir.1, hd.2 + dir.2) ∈ (hd :: tl).dropLast
    · rw [if_pos hcol, if_pos hcol]
      rfl
    · rw [if_neg hcol, if_neg hcol]
      by_cases hfood : (hd.1 + dir.1, hd.2 + dir.2) = fp
      · rw [if_pos hfood, if_pos hfood]
        have hcongr := generate_food_congr
          { width := w, height := h, block_size := bs, game_over := true,
            score := sc, snake_pos := (hd.1 + dir.1, hd.2 + dir.2) :: hd :: tl,
            direction := dir, food_pos := fp }
          { width := w, height := h, block_size := bs, game_over := false,
            score := sc, snake_pos := (hd.1 + dir.1, hd.2 + dir.2) :: hd :: tl,
            direction := dir, food_pos := fp }
          rfl rfl rfl rfl draws
        rw [hcongr]
        cases hgen : generate_food
            { width := w, height := h, block_size := bs, game_over := false,
              score := sc, snake_pos := (hd.1 + dir.1, hd.2 + dir.2) :: hd :: tl,
              direction := dir, food_pos := fp } draws with
        | none => rfl
        | some r => cases r <;> rfl
      · rw [if_neg hfood, if_neg hfood]
        rfl

/-- A terminal state on which `move_snake` is demonstrably not a no-op. -/
def gOver : Game :=
  { width := 800, height := 600, block_size := 20, game_over := true, score := 0,
    snake_pos := [(400, 300)], direction := (20, 0), food_pos := (0, 0) }

/-- Concrete instance of `move_snake_ignores_game_over` on `gOver`. -/
theorem move_snake_ignores_game_over_witness :
    move_snake gOver [] =
      (move_snake { gOver with game_over := false } []).map
        (Except.map fun x => { x with game_over := true }) :=
  move_snake_ignores_game_over gOver [] rfl (by decide)

/-- A position strictly inside the board of `g`. -/
def inBounds (g : Game) (p : Int × Int) : Prop :=
  0 ≤ p.1 ∧ p.1 < g.width ∧ 0 ≤ p.2 ∧ p.2 < g.height

/-- The state invariant: the board dimensions stay positive and, while the
game is live, the snake is nonempty, duplicate-free, food-free and entirely
on the board. -/
def Inv (g : Game) : Prop :=
  0 < g.width ∧ 0 < g.height ∧
  (g.game_over = false →
    g.snake_pos ≠ [] ∧ g.snake_pos.Nodup ∧ g.food_pos ∉ g.snake_pos ∧
    ∀ p ∈ g.snake_pos, inBounds g p)

/-- The states the two reachability claims quantify over: constructed with
positive dimensions and block size (the documented constructor contract),
then driven by `change_direction` with scaled-cardinal requests,
`move_snake`, and `reset_game`.  Sampling transitions exist exactly when the
food loop terminates on the supplied draws. -/
inductive Reachable : Game → Prop where
  | boot : ∀ (w h bs : Int) (draws : List (Nat × Nat)) (g : Game),
      0 < w → 0 < h → 0 < bs → snakeInit w h bs draws = some (.ok g) →
      Reachable g
  | turn : ∀ (g : Game) (nd : Int × Int), Reachable g →
      isCardinal g.block_size nd → Reachable (change_direction g nd)
  | tick : ∀ (g : Game) (draws : List (Nat × Nat)) (g2 : Game), Reachable g →
      move_snake g draws = some (.ok g2) → Reachable g2
  | restart : ∀ (g : Game) (draws : List (Nat × Nat)) (g2 : Game), Reachable g →
      reset_game g draws = some (.ok g2) → Reachable g2

/-- A successful `reset_game` on a positive board establishes the invariant
outright: one centered in-bounds segment and food off the snake. -/
theorem reset_game_inv (g g2 : Game) (draws : List (Nat × Nat))
    (hw : 0 < g.width) (hh : 0 < g.height)
    (h : reset_game g draws = some (.ok g2)) : Inv g2 := by
  unfold reset_game at h
  dsimp only at h
  cases hgen : generate_food
      { g with game_over := false, score := 0,
               snake_pos := [(g.width.fdiv 2, g.height.fdiv 2)],
               direction := (0, 0) } draws with
  | none => rw [hgen] at h; simp at h
  | some r =>
    cases r with
    | error e => rw [hgen] at h; simp at h
    | ok p =>
      rw [hgen] at h
      simp only [Option.some.injEq, Except.ok.injEq] at h
      subst h
      have hx1 : (0 : Int) ≤ g.width.fdiv 2 :=
        Int.fdiv_nonneg (le_of_lt hw) (by norm_num)
      have hx2 : g.width.fdiv 2 < g.width := by
        rw [Int.fdiv_eq_ediv _ (by norm_num)]
        omega
      have hy1 : (0 : Int) ≤ g.height.fdiv 2 :=
        Int.fdiv_nonneg (le_of_lt hh) (by norm_num)
      have hy2 : g.height.fdiv 2 < g.height := by
        rw [Int.fdiv_eq_ediv _ (by norm_num)]
        omega
      refine ⟨hw, hh, fun _ => ⟨by simp, by simp, ?_, ?_⟩⟩
      · exact generate_food_not_mem draws
          { g with game_over := false, score := 0,
                   snake_pos := [(g.width.fdiv 2, g.height.fdiv 2)],
                   direction := (0, 0) } p hgen
      · intro q hq
        simp only [List.mem_singleton] at hq
        subst hq
        exact ⟨hx1, hx2, hy1, hy2⟩

/-- A successful `move_snake` preserves the invariant: the collision check
protects the walls and the body, and — because a live state keeps food off
the snake — the food-eating prepend cannot overlap the retained tail. -/
theorem move_snake_inv (g g2 : Game) (draws : List (Nat × Nat))
    (hInv : Inv g) (h : move_snake g draws = some (.ok g2)) : Inv g2 := by
  obtain ⟨hw, hh, hlive⟩ := hInv
  unfold move_snake at h
  by_cases hdir : g.direction = (0, 0)
  · rw [if_pos hdir] at h
    simp only [Option.some.injEq, Except.ok.injEq] at h
    subst h
    exact ⟨hw, hh, hlive⟩
  · rw [if_neg hdir] at h
    cases hsp : g.snake_pos with
    | nil => simp only [hsp] at h; simp at h
    | cons hd tl =>
      simp only [hsp] at h
      by_cases hcol : g.width ≤ hd.1 + g.direction.1 ∨ hd.1 + g.direction.1 < 0 ∨
          g.height ≤ hd.2 + g.direction.2 ∨ hd.2 + g.direction.2 < 0 ∨
          (hd.1 + g.direction.1, hd.2 + g.direction.2) ∈ (hd :: tl).dropLast
      · rw [if_pos hcol] at h
        simp only [Option.some.injEq, Except.ok.injEq] at h
        subst h
        refine ⟨hw, hh, fun hfalse => ?_⟩
        simp at hfalse
      · rw [if_neg hcol] at h
        push_neg at hcol
        obtain ⟨hc1, hc2, hc3, hc4, hc5⟩ := hcol
        by_cases hfood : (hd.1 + g.direction.1, hd.2 + g.direction.2) = g.food_pos
        · rw [if_pos hfood] at h
          cases hgen : generate_food
              { g with snake_pos :=
                  (hd.1 + g.direction.1, hd.2 + g.direction.2) :: hd :: tl }
              draws with
          | none => rw [hgen] at h; simp at h
          | some r =>
            cases r with
            | error e => rw [hgen] at h; simp at h
            | ok p =>
              rw [hgen] at h
              simp only [Option.some.injEq, Except.ok.injEq] at h
              subst h
              refine ⟨hw, hh, fun hgo => ?_⟩
              obtain ⟨hne, hnd, hfoodmem, hbounds⟩ := hlive hgo
              rw [hsp] at hnd hfoodmem hbounds
              refine ⟨by simp, ?_, ?_, ?_⟩
              · rw [List.nodup_cons]
                exact ⟨fun hmem => hfoodmem (hfood ▸ hmem), hnd⟩
              · exact generate_food_not_mem draws
                  { g with snake_pos :=
                      (hd.1 + g.direction.1, hd.2 + g.direction.2) :: hd :: tl }
                  p hgen
              · intro q hq
                simp only [List.mem_cons] at hq
                rcases hq with hq | hq
                · subst hq
                  exact ⟨hc2, hc1, hc4, hc3⟩
                · exact hbounds q (List.mem_cons.mpr hq)
        · rw [if_neg hfood] at h
          simp only [Option.some.injEq, Except.ok.injEq] at h
          subst h
          refine ⟨hw, hh, fun hgo => ?_⟩
          obtain ⟨hne, hnd, hfoodmem, hbounds⟩ := hlive hgo
          rw [hsp] at hnd hfoodmem hbounds
          rw [List.dropLast_cons₂]
          refine ⟨by simp, ?_, ?_, ?_⟩
          · rw [List.nodup_cons]
            exact ⟨hc5, (List.dropLast_sublist (hd :: tl)).nodup hnd⟩
          · intro hmem
            simp only [List.mem_cons] at hmem
            rcases hmem with hmem | hmem
            · exact hfood (hmem ▸ rfl)
            · exact hfoodmem ((List.dropLast_sublist (hd :: tl)).subset hmem)
          · intro q hq
            simp only [List.mem_cons] at hq
            rcases hq with hq | hq
            · subst hq
              exact ⟨hc2, hc1, hc4, hc3⟩
            · exact hbounds q ((List.dropLast_sublist (hd :: tl)).subset hq)

/-- Changing direction touches only the direction field, so it preserves the
invariant. -/
theorem change_direction_inv (g : Game) (nd : Int × Int) (hInv : Inv g) :
    Inv (change_direction g nd) := by
  unfold change_direction
  by_cases hc : g.direction = (0, 0) ∨
      some nd ≠ opposite_directions g.block_size g.direction
  · rw [if_pos hc]
    exact hInv
  · rw [if_neg hc]
    exact hInv

/-- Every reachable state satisfies the invariant. -/
theorem reachable_inv (g : Game) (hr : Reachable g) : Inv g := by
  induction hr with
  | boot w h bs draws g hw hh hbs hinit =>
    exact reset_game_inv _ g draws hw hh hinit
  | turn g nd hr hcard ih => exact change_direction_inv g nd ih
  | tick g draws g2 hr hmove ih => exact move_snake_inv g g2 draws ih hmove
  | restart g draws g2 hr hreset ih =>
    exact reset_game_inv g g2 draws ih.1 ih.2.1 hreset

/-- Claim C2: along any run from a freshly constructed or reset game under
scaled-cardinal direction changes and moves, a live state's snake list has
no duplicate positions. -/
theorem reachable_snake_nodup (g : Game) (hr : Reachable g)
    (hgo : g.game_over = false) : g.snake_pos.Nodup :=
  ((reachable_inv g hr).2.2 hgo).2.1

/-- The game `G0` is reachable: it is the result of constructing the default board
with the draw pair `(0, 0)`. -/
theorem reachable_G0 : Reachable G0 :=
  Reachable.boot 800 600 20 [(0, 0)] G0 (by norm_num) (by norm_num)
    (by norm_num) rfl

/-- Concrete instance of `reachable_snake_nodup` on the freshly constructed
`G0`. -/
theorem reachable_snake_nodup_witness : G0.snake_pos.Nodup :=
  reachable_snake_nodup G0 reachable_G0 rfl

/-- Claim C3: along any run from a freshly constructed or reset game under
scaled-cardinal direction changes and moves, a live state has a head and it
lies strictly inside the board. -/
theorem reachable_head_in_bounds (g : Game) (hr : Reachable g)
    (hgo : g.game_over = false) :
    ∃ hd, g.snake_pos.head? = some hd ∧
      0 ≤ hd.1 ∧ hd.1 < g.width ∧ 0 ≤ hd.2 ∧ hd.2 < g.height := by
  obtain ⟨hne, hnd, hfoodmem, hbounds⟩ := (reachable_inv g hr).2.2 hgo
  obtain ⟨hd, tl, hsp⟩ := List.exists_cons_of_ne_nil hne
  refine ⟨hd, by rw [hsp]; rfl, ?_⟩
  have := hbounds hd (by rw [hsp]; exact List.mem_cons_self _ _)
  exact this

/-- Concrete instance of `reachable_head_in_bounds` on the freshly
constructed `G0`. -/
theorem reachable_head_in_bounds_witness :
    ∃ hd, G0.snake_pos.head? = some hd ∧
      0 ≤ hd.1 ∧ hd.1 < G0.width ∧ 0 ≤ hd.2 ∧ hd.2 < G0.height :=
  reachable_head_in_bounds G0 reachable_G0 rfl

/-- Rounding via `roundHalfEvenPos` returns either the floor quotient or its successor. -/
theorem roundHalfEvenPos_bounds (n d : Int) :
    n / d ≤ roundHalfEvenPos n d ∧ roundHalfEvenPos n d ≤ n / d + 1 := by
  unfold roundHalfEvenPos
  split_ifs <;> refine ⟨?_, ?_⟩ <;> linarith

/-- A successful `random.randrange(0, n)` value lies in `[0, n)`. -/
theorem randrange0_ok_inv (n : Int) (draw : Nat) (v : Int)
    (h : randrange0 n draw = .ok v) : 0 ≤ v ∧ v < n := by
  unfold randrange0 at h
  by_cases hn : n ≤ 0
  · rw [if_pos hn] at h
    simp at h
  · rw [if_neg hn] at h
    simp only [Except.ok.injEq] at h
    subst h
    have hm := Nat.mod_lt draw (show 0 < n.toNat by omega)
    omega

/-- A successful Python `round(num / den)` is `roundHalfEven num den`. -/
theorem pyRoundDiv_ok_inv (num den r : Int)
    (h : pyRoundDiv num den = .ok r) : r = roundHalfEven num den := by
  unfold pyRoundDiv at h
  by_cases hd : den = 0
  · rw [if_pos hd] at h
    simp at h
  · rw [if_neg hd] at h
    simp only [Except.ok.injEq] at h
    exact h.symm

/-- Inversion for one food coordinate: a successful sample is the scaled
rounding of a raw value drawn from `[0, limit - bs)`. -/
theorem sampleCoord_ok_inv (limit bs : Int) (draw : Nat) (x : Int)
    (h : sampleCoord limit bs draw = .ok x) :
    ∃ v : Int, 0 ≤ v ∧ v < limit - bs ∧ x = roundHalfEven v bs * bs := by
  unfold sampleCoord at h
  cases hr : randrange0 (limit - bs) draw with
  | error e => simp [hr] at h
  | ok v =>
    simp only [hr] at h
    cases hp : pyRoundDiv v bs with
    | error e => simp [hp] at h
    | ok r =>
      simp only [hp, Except.ok.injEq] at h
      obtain ⟨hv0, hvlt⟩ := randrange0_ok_inv (limit - bs) draw v hr
      exact ⟨v, hv0, hvlt, by rw [← h, pyRoundDiv_ok_inv v bs r hp]⟩

/-- Inversion for a food sample: both coordinate samples succeeded. -/
theorem sampleFood_ok_inv (g : Game) (dx dy : Nat) (p : Int × Int)
    (h : sampleFood g dx dy = .ok p) :
    sampleCoord g.width g.block_size dx = .ok p.1 ∧
    sampleCoord g.height g.block_size dy = .ok p.2 := by
  unfold sampleFood at h
  cases hx : sampleCoord g.width g.block_size dx with
  | error e => simp [hx] at h
  | ok x =>
    simp only [hx] at h
    cases hy : sampleCoord g.height g.block_size dy with
    | error e => simp [hy] at h
    | ok y =>
      simp only [hy, Except.ok.injEq] at h
      subst h
      exact ⟨rfl, rfl⟩

/-- The key bound: scaling the rounded quotient of a raw draw from
`[0, L - bs)` stays inside `[0, L - bs]` whenever `bs` is positive and
divides `L`.  The raw value is below `bs * (k - 1)`, so its floor quotient
is at most `k - 2` and even rounding up stays at most `k - 1`. -/
theorem round_scale_bounds (v bs L : Int) (hbs : 0 < bs) (hdvd : bs ∣ L)
    (hv0 : 0 ≤ v) (hv : v < L - bs) :
    0 ≤ roundHalfEven v bs * bs ∧ roundHalfEven v bs * bs ≤ L - bs := by
  have hneg : ¬ bs < 0 := by omega
  unfold roundHalfEven
  rw [if_neg hneg]
  obtain ⟨k, hk⟩ := hdvd
  obtain ⟨hq1, hq2⟩ := roundHalfEvenPos_bounds v bs
  have hq0 : 0 ≤ v / bs := Int.ediv_nonneg hv0 (le_of_lt hbs)
  have hqlt : v / bs < k - 1 := by
    rw [Int.ediv_lt_iff_lt_mul hbs]
    have h2 : (k - 1) * bs = bs * k - bs := by ring
    linarith
  have hrho : roundHalfEvenPos v bs ≤ k - 1 :=
    le_trans hq2 (Int.lt_iff_add_one_le.mp hqlt)
  refine ⟨mul_nonneg (le_trans hq0 hq1) (le_of_lt hbs), ?_⟩
  calc roundHalfEvenPos v bs * bs ≤ (k - 1) * bs :=
        mul_le_mul_of_nonneg_right hrho (le_of_lt hbs)
    _ = L - bs := by rw [hk]; ring

/-- Claim C8: under the documented board contract (positive block size
dividing both dimensions), every position `generate_food` returns is
grid-aligned, lies in `[0, width - block_size] × [0, height - block_size]`,
and misses every snake segment.  Termination of the rejection loop is
expressed by the success hypothesis: the claim speaks about the returned
position whenever the supplied draws let the loop return. -/
theorem generate_food_spec (g : Game) (x y : Int) (draws : List (Nat × Nat))
    (hbs : 0 < g.block_size) (hdw : g.block_size ∣ g.width)
    (hdh : g.block_size ∣ g.height)
    (hgen : generate_food g draws = some (.ok (x, y))) :
    g.block_size ∣ x ∧ 0 ≤ x ∧ x ≤ g.width - g.block_size ∧
    g.block_size ∣ y ∧ 0 ≤ y ∧ y ≤ g.height - g.block_size ∧
    (x, y) ∉ g.snake_pos := by
  obtain ⟨dx, dy, hsf⟩ := generate_food_sampled draws g (x, y) hgen
  obtain ⟨hx, hy⟩ := sampleFood_ok_inv g dx dy (x, y) hsf
  obtain ⟨vx, hvx0, hvxlt, hxeq⟩ :=
    sampleCoord_ok_inv g.width g.block_size dx x hx
  obtain ⟨vy, hvy0, hvylt, hyeq⟩ :=
    sampleCoord_ok_inv g.height g.block_size dy y hy
  have hxb := round_scale_bounds vx g.block_size g.width hbs hdw hvx0 hvxlt
  have hyb := round_scale_bounds vy g.block_size g.height hbs hdh hvy0 hvylt
  refine ⟨?_, ?_, ?_, ?_, ?_, ?_, generate_food_not_mem draws g (x, y) hgen⟩
  · rw [hxeq]
    exact dvd_mul_left _ _
  · rw [hxeq]
    exact hxb.1
  · rw [hxeq]
    exact hxb.2
  · rw [hyeq]
    exact dvd_mul_left _ _
  · rw [hyeq]
    exact hyb.1
  · rw [hyeq]
    exact hyb.2

/-- Concrete instance of `generate_food_spec`: on `G0`'s board the draw
pair `(0, 0)` yields `(0, 0)`, aligned, in bounds and off the snake. -/
theorem generate_food_spec_witness :
    (G0.block_size ∣ (0 : Int)) ∧ (0 : Int) ≤ 0 ∧
    (0 : Int) ≤ G0.width - G0.block_size ∧
    (G0.block_size ∣ (0 : Int)) ∧ (0 : Int) ≤ 0 ∧
    (0 : Int) ≤ G0.height - G0.block_size ∧
    ((0, 0) : Int × Int) ∉ G0.snake_pos :=
  generate_food_spec G0 0 0 [(0, 0)] (by decide) ⟨40, by decide⟩
    ⟨30, by decide⟩ rfl

end SnakeSpec
